import Mathlib

/-!
Shallow embedding of `plink_tensorflow` (plink_feed.py and
variational_autoencoder.py) and proofs about its data-feed pipeline and
training objective.

Conventions of the embedding:
  * a genotype call is `Option ℤ` — `none` models a NaN (missing) entry;
  * `read_plink`'s result `(bim, fam, G)` keeps only what the code uses:
    the two metadata tables appear as lists of row labels (only their row
    counts are read), and `G` is the genotype matrix, variants × samples,
    as a list of rows;
  * the filesystem is an association list from path to written record
    content, threaded explicitly through `make_tf_records`;
  * `shuffle` (random.shuffle) is nondeterministic, so functions that
    iterate a shuffled key order take the shuffled order as an explicit
    argument, quantified over permutations in the theorems;
  * Python exceptions become `Except PyError`.
-/

namespace PlinkTensorflow

/-- One genotype call; `none` models NaN (missing data). -/
abbrev Geno := Option ℤ

/-- Python / TensorFlow error outcomes reachable in the modelled code.
`emptySplitError` is modelled from the spec: the spec's §7 taxonomy names an
`EmptySplitError` that the repository's code never defines or raises; the
constructor exists so the spec's claim about it can be stated. -/
inductive PyError where
  | valueError
  | typeError
  | zeroDivisionError
  | invalidArgument
  | emptySplitError
deriving DecidableEq

instance {ε α : Type} [DecidableEq ε] [DecidableEq α] : DecidableEq (Except ε α)
  | Except.ok a, Except.ok b =>
    if h : a = b then Decidable.isTrue (by rw [h]) else Decidable.isFalse (by simp [h])
  | Except.ok _, Except.error _ => Decidable.isFalse (by simp)
  | Except.error _, Except.ok _ => Decidable.isFalse (by simp)
  | Except.error e, Except.error f =>
    if h : e = f then Decidable.isTrue (by rw [h]) else Decidable.isFalse (by simp [h])

/-- The `(bim, fam, G)` triple that `read_plink` returns for one study:
variant-metadata rows, sample-metadata rows, and the genotype matrix
(variants on the row axis, samples on the column axis). -/
structure PlinkStudy where
  bim : List String
  fam : List String
  G : List (List Geno)
deriving DecidableEq

/-- Number of variants of a study, `bim.shape[0]`. -/
def PlinkStudy.variantCount (ps : PlinkStudy) : ℕ := ps.bim.length

/-- Number of samples of a study, `fam.shape[0]`. -/
def PlinkStudy.sampleCount (ps : PlinkStudy) : ℕ := ps.fam.length

/-! ## minibatch (plink_feed.py lines 20–32) -/

/-- The `minibatch` generator, materialized as the list of the batches it
yields.  `idxs` is the index array `np.arange(n)` after the optional
`np.random.shuffle`; the shuffle is nondeterministic so the (possibly
permuted) array is an explicit argument.  Faithful to the source, batch `i`
is the numpy slice `X[idxs[i * batch_size] : idxs[i * batch_size] + batch_size]`
— a contiguous run of rows of `X` starting at the *value* of the index array
at position `i * batch_size` (numpy slicing clips at the end of the array,
modelled by `drop`/`take`). -/
def minibatch (X : List (List Geno)) (batch_size : ℕ) (idxs : List ℕ) :
    List (List (List Geno)) :=
  (List.range (X.length / batch_size)).map fun i =>
    (X.drop (idxs.getD (i * batch_size) 0)).take batch_size

/-! ## Record writing (make_tf_records, lines 70–112) -/

/-- Backfill (`fillna(axis=0, method='backfill')`) along one column: a
missing value takes the next valid value below it; trailing missing values
stay missing. -/
def backfillCol : List Geno → List Geno
  | [] => []
  | g :: rest =>
    let rest' := backfillCol rest
    (match g with
     | some v => some v
     | none => rest'.headD none) :: rest'

/-- Cast to `np.int8`: wrap into the signed 8-bit range. -/
def toInt8 (v : ℤ) : ℤ := (v + 128) % 256 - 128

/-- A genotype call after `.astype(np.int8)`.  numpy leaves the cast of a
NaN that survived the backfill unspecified; the model maps it to 0 and no
claim depends on that value. -/
def genoToInt8 : Geno → ℤ
  | some v => toInt8 v
  | none => 0

/-- Column `j` of the genotype matrix: one sample's vector of variant
calls. -/
def matCol (G : List (List Geno)) (j : ℕ) : List Geno :=
  G.map fun row => row.getD j none

/-- The per-sample records `make_tf_records` writes for one study: after the
column-wise backfill and the int8 cast (line 96), record `j` is column `j`
of the matrix (`G[:, sample_j]`, lines 103–105) — one record per sample,
each the full variant vector.  `G.shape[1]` is the row length of the
(rectangular) matrix. -/
def studyRecords (G : List (List Geno)) : List (List ℤ) :=
  (List.range (G.headD []).length).map fun j =>
    (backfillCol (matCol G j)).map genoToInt8

/-- The filesystem visible to `make_tf_records`: written record files by
path. -/
abbrev FileSystem := List (String × List (List ℤ))

/-- `os.path.exists`. -/
def fsExists (fs : FileSystem) (path : String) : Bool :=
  fs.any fun e => e.1 = path

/-- Writing a record file replaces any previous content at the path. -/
def fsWrite (fs : FileSystem) (path : String) (content : List (List ℤ)) :
    FileSystem :=
  (path, content) :: fs.filter fun e => e.1 ≠ path

/-- `os.path.join` as the code uses it (POSIX paths, the second component
never absolute here): keep the separator if `dir` already ends in one,
insert it otherwise. -/
def osPathJoin (dir name : String) : String :=
  if dir = "" then name
  else if dir.data.getLast? = some '/' then dir ++ name
  else dir ++ "/" ++ name

/-- The destination path of one study's record file (line 89). -/
def recordPath (tf_records_dir study : String) : String :=
  osPathJoin tf_records_dir (study ++ ".tfrecords")

/-- Result of `make_tf_records`: the returned `records` map (study name →
record path, in insertion order) and the filesystem after the writes. -/
structure RecordsResult where
  records : List (String × String)
  fs : FileSystem
deriving DecidableEq

/-- `make_tf_records` (lines 70–112).  For each study it computes the
destination path and the imputed int8 matrix, then — faithful to the
condition on line 97, `if os.path.exists(filename) or overwrite:` — *skips*
the write whenever the file exists **or** `overwrite` is set, and writes
otherwise.  `records[study] = filename` is recorded either way (line 110).
The `compress` flag only selects the `TFRecordOptions` compression mode and
has no semantic effect on the modelled content, so it is not modelled. -/
def make_tf_records (fs0 : FileSystem) (tf_records_dir : String)
    (overwrite : Bool) (study_arrays : List (String × PlinkStudy)) :
    RecordsResult :=
  study_arrays.foldl
    (fun acc sp =>
      let filename := recordPath tf_records_dir sp.1
      if fsExists acc.fs filename || overwrite then
        { records := acc.records ++ [(sp.1, filename)], fs := acc.fs }
      else
        { records := acc.records ++ [(sp.1, filename)],
          fs := fsWrite acc.fs filename (studyRecords sp.2.G) })
    { records := [], fs := fs0 }

/-- `decode_tf_records` (lines 115–122): `tf.parse_single_example` with
`FixedLenFeature((), tf.int64)` declares a *scalar* feature, so parsing a
record succeeds — returning its single int64 — exactly when the record's
int64 list holds one element, and raises an invalid-argument error
otherwise. -/
def decode_tf_records (record : List ℤ) : Except PyError ℤ :=
  match record with
  | [v] => Except.ok v
  | _ => Except.error PyError.invalidArgument

/-! ## MetaAnalysisDataset.__init__ (lines 40–67) -/

/-- Line 63: `self.m_variants = sum([bim.shape[0] for (bim, fam, G) in
self.study_arrays.values()])`. -/
def m_variants_init (study_arrays : List (String × PlinkStudy)) : ℕ :=
  (study_arrays.map fun sp => sp.2.bim.length).sum

/-- The fields of a `MetaAnalysisDataset` after `__init__`. -/
structure MetaAnalysisDataset where
  test_prop : ℚ
  study_arrays : List (String × PlinkStudy)
  m_variants : ℕ
  study_records : List (String × String)
  fs : FileSystem
deriving DecidableEq

/-- `__init__` (lines 40–67): records `test_prop` and the loaded studies,
sets `m_variants` to the sum of the studies' variant counts (line 63), and
writes the record files with the call's defaults `overwrite=False`
(line 66). -/
def MetaAnalysisDataset.init (fs0 : FileSystem) (tf_records_dir : String)
    (test_prop : ℚ) (study_arrays : List (String × PlinkStudy)) :
    MetaAnalysisDataset :=
  let r := make_tf_records fs0 tf_records_dir false study_arrays
  { test_prop := test_prop
    study_arrays := study_arrays
    m_variants := m_variants_init study_arrays
    study_records := r.records
    fs := r.fs }

/-! ## test_train_split (lines 125–155) -/

/-- `self.study_records[study]`: `make_tf_records` stores a path for every
study of the registry, so the default is never reached on the code's own
states. -/
def lookupRecord (records : List (String × String)) (study : String) :
    String :=
  ((records.find? fun e => e.1 = study).map fun e => e.2).getD ""

/-- The entry `(study, self.study_records[study])` that the split loop puts
into the train or the test mapping. -/
def entryRecord (records : List (String × String))
    (sp : String × PlinkStudy) : String × String :=
  (sp.1, lookupRecord records sp.1)

/-- The sample counts (`fam.shape[0]`) of a list of studies, in order. -/
def famSizes (l : List (String × PlinkStudy)) : List ℕ :=
  l.map fun sp => sp.2.fam.length

/-- The mutable state of the split loop: the two assignment mappings being
built, `train_set_size`, and the dataset's `m_variants` field which the loop
reassigns (line 146). -/
structure SplitState where
  train_studies : List (String × String)
  test_studies : List (String × String)
  train_set_size : ℚ
  m_variants : ℕ
deriving DecidableEq

/-- The loop of `test_train_split` (lines 142–148): for each study of the
shuffled order, if `train_set_size` is still below the threshold the study
goes to the train mapping, `train_set_size` grows by its sample count and
`m_variants` is overwritten with its variant count; otherwise the study goes
to the test mapping. -/
def splitLoop (threshold : ℚ) (records : List (String × String)) :
    List (String × PlinkStudy) → SplitState → SplitState
  | [], st => st
  | sp :: rest, st =>
    if st.train_set_size < threshold then
      splitLoop threshold records rest
        { train_studies := st.train_studies ++ [entryRecord records sp]
          test_studies := st.test_studies
          train_set_size := st.train_set_size + (sp.2.fam.length : ℚ)
          m_variants := sp.2.bim.length }
    else
      splitLoop threshold records rest
        { st with test_studies := st.test_studies ++ [entryRecord records sp] }

/-- Line 135: `float(sum([x[1].shape[0] for x in self.study_arrays.values()]))`. -/
def totalSampleSize (study_arrays : List (String × PlinkStudy)) : ℚ :=
  (((study_arrays.map fun sp => sp.2.fam.length).sum : ℕ) : ℚ)

/-- `test_train_split` (lines 125–155).  `order` is the study list in the
shuffled key order (`shuffle(studies)`, line 141) — nondeterministic, hence
an explicit argument; `m0` is the object's `m_variants` before the call and
`records` its `study_records`.  After the loop the method prints the
achieved proportions (lines 150–155), dividing `train_set_size` by
`total_sample_size`: when the total is zero that division raises
`ZeroDivisionError` (Python raises on float division by zero); there is no
other error path and in particular no `EmptySplitError`. -/
def test_train_split (study_arrays : List (String × PlinkStudy))
    (records : List (String × String)) (test_prop : ℚ) (m0 : ℕ)
    (order : List (String × PlinkStudy)) : Except PyError SplitState :=
  if totalSampleSize study_arrays = 0 then Except.error PyError.zeroDivisionError
  else
    Except.ok (splitLoop (totalSampleSize study_arrays * test_prop) records order
      { train_studies := [], test_studies := [], train_set_size := 0,
        m_variants := m0 })

/-! ## train_set_minibatches (lines 165–172) -/

/-- Python tuple unpacking `(bim, fam, G) = value` applied to a string:
binds the three characters when the string has exactly three, and raises
`ValueError` otherwise. -/
def unpackTriple (s : String) : Except PyError (Char × Char × Char) :=
  match s.data with
  | [a, b, c] => Except.ok (a, b, c)
  | _ => Except.error PyError.valueError

/-- `train_set_minibatches` (lines 165–172): the loop header
`for study, (bim, fam, G) in self.train_studies.items()` unpacks each value
of `train_studies` — which `test_train_split` set to the study's record-file
*path* (line 144) — as a `(bim, fam, G)` triple.  For a path of length three
the three characters are bound and the body then applies `da.transpose` to
the single character bound to `G`, a `TypeError`; for any other length the
unpacking itself raises `ValueError`.  Either way the generator raises
before yielding a batch; with no train studies it yields nothing. -/
def train_set_minibatches : List (String × String) → Except PyError Unit
  | [] => Except.ok ()
  | (_, path) :: _ =>
    match unpackTriple path with
    | Except.ok _ => Except.error PyError.typeError
    | Except.error e => Except.error e

/-! ## The training objective (variational_autoencoder.py lines 33–39) -/

/-- `tf.reduce_mean` of a vector. -/
def reduce_mean (xs : List ℚ) : ℚ := xs.sum / (xs.length : ℚ)

/-- Line 38: `self.elbo = tf.reduce_mean(likelihood - divergence)`, the mean
of the elementwise difference of the per-sample log-likelihood vector and
the per-sample KL-divergence vector. -/
def elbo (likelihood divergence : List ℚ) : ℚ :=
  reduce_mean (List.zipWith (fun a b => a - b) likelihood divergence)

/-- Line 39: `tf.train.AdamOptimizer(0.001).minimize(-self.elbo)` — the
scalar handed to the optimizer to minimize is the negated elbo. -/
def trainingObjective (likelihood divergence : List ℚ) : ℚ :=
  -(elbo likelihood divergence)

/-! ## The greedy threshold count

`greedyCount θ sizes` is the number of studies the split loop assigns to the
train group when the remaining threshold is `θ`: it takes studies while the
cumulative sample count stays below the threshold. -/

/-- How many entries the greedy loop takes: one plus the rest at the reduced
threshold while the threshold is still positive, none once it is not. -/
def greedyCount (θ : ℚ) : List ℕ → ℕ
  | [] => 0
  | n :: rest => if 0 < θ then greedyCount (θ - (n : ℚ)) rest + 1 else 0

/-! ## Concrete instances used by witnesses and counterexamples -/

/-- The directory the code's defaults use. -/
def demoDir : String := "/plink_tensorflow/data/"

/-- A study with two variants and one sample, no missing calls. -/
def demoStudy : PlinkStudy :=
  { bim := ["v1", "v2"], fam := ["s1"], G := [[some 0], [some 1]] }

/-- A one-study registry. -/
def demoArrays : List (String × PlinkStudy) := [("study1", demoStudy)]

/-- The record map `__init__` builds for the one-study registry. -/
def demoRecords : List (String × String) :=
  (make_tf_records [] demoDir false demoArrays).records

/-- A study with two variants and ten samples. -/
def studyA : PlinkStudy :=
  { bim := ["a1", "a2"], fam := List.replicate 10 "s",
    G := List.replicate 2 (List.replicate 10 (some 0)) }

/-- A study with three variants and ten samples. -/
def studyB : PlinkStudy :=
  { bim := ["b1", "b2", "b3"], fam := List.replicate 10 "s",
    G := List.replicate 3 (List.replicate 10 (some 0)) }

/-- A two-study registry, twenty samples in total. -/
def arrays2 : List (String × PlinkStudy) := [("a", studyA), ("b", studyB)]

/-- The record map `__init__` builds for the two-study registry. -/
def records2 : List (String × String) :=
  (make_tf_records [] demoDir false arrays2).records

/-- A study with one variant and zero samples. -/
def emptyStudy : PlinkStudy := { bim := ["v1"], fam := [], G := [[]] }

/-- A registry whose total sample count is zero. -/
def emptyArrays : List (String × PlinkStudy) := [("s0", emptyStudy)]

/-- Twenty-five samples of one variant each (samples on the row axis, as
`minibatch` receives the transposed matrix). -/
def X25 : List (List Geno) := (List.range 25).map fun i => [some (i : ℤ)]

/-- A permutation of `np.arange(25)` whose first entry is 20 — a possible
outcome of `np.random.shuffle`. -/
def shuffled25 : List ℕ := [20, 21, 22, 23, 24] ++ List.range 20

/-! ## Lemmas about the greedy count -/

theorem greedyCount_le_length (θ : ℚ) (l : List ℕ) :
    greedyCount θ l ≤ l.length := by
  induction l generalizing θ with
  | nil => simp [greedyCount]
  | cons n rest ih =>
    simp only [greedyCount, List.length_cons]
    split
    · exact Nat.succ_le_succ (ih _)
    · exact Nat.zero_le _

theorem greedyCount_of_nonpos {θ : ℚ} (h : ¬ 0 < θ) (l : List ℕ) :
    greedyCount θ l = 0 := by
  cases l with
  | nil => rfl
  | cons n rest => simp [greedyCount, h]

theorem greedyCount_pos {θ : ℚ} (h0 : 0 < θ) {l : List ℕ} (hl : l ≠ []) :
    0 < greedyCount θ l := by
  cases l with
  | nil => exact absurd rfl hl
  | cons n rest => simp [greedyCount, h0]

theorem le_sum_take_greedyCount (θ : ℚ) (l : List ℕ)
    (h : θ ≤ ((l.sum : ℕ) : ℚ)) :
    θ ≤ (((l.take (greedyCount θ l)).sum : ℕ) : ℚ) := by
  induction l generalizing θ with
  | nil => simpa using h
  | cons n rest ih =>
    by_cases h0 : 0 < θ
    · simp only [greedyCount, if_pos h0, List.take_succ_cons, List.sum_cons]
      have hr : θ - (n : ℚ) ≤ ((rest.sum : ℕ) : ℚ) := by
        simp only [List.sum_cons] at h
        push_cast at h ⊢
        linarith
      have := ih (θ - (n : ℚ)) hr
      push_cast at this ⊢
      linarith
    · have hθ : θ ≤ 0 := le_of_not_lt h0
      rw [greedyCount_of_nonpos h0]
      simpa using hθ

theorem sum_take_pred_greedyCount_lt (θ : ℚ) (l : List ℕ) (h0 : 0 < θ) :
    (((l.take (greedyCount θ l - 1)).sum : ℕ) : ℚ) < θ := by
  induction l generalizing θ with
  | nil => simpa using h0
  | cons n rest ih =>
    simp only [greedyCount, if_pos h0, Nat.add_sub_cancel]
    rcases hk : greedyCount (θ - (n : ℚ)) rest with _ | k
    · simpa using h0
    · have hpos : 0 < θ - (n : ℚ) := by
        by_contra hn
        rw [greedyCount_of_nonpos hn] at hk
        exact Nat.succ_ne_zero k hk.symm
      have hlt := ih (θ - (n : ℚ)) hpos
      rw [hk] at hlt
      simp only [Nat.add_sub_cancel] at hlt
      simp only [List.take_succ_cons, List.sum_cons]
      push_cast at hlt ⊢
      linarith

theorem greedyCount_eq_length (θ : ℚ) (l : List ℕ)
    (h : ∀ k, k < l.length → (((l.take k).sum : ℕ) : ℚ) < θ) :
    greedyCount θ l = l.length := by
  induction l generalizing θ with
  | nil => rfl
  | cons n rest ih =>
    have h0 : 0 < θ := by simpa using h 0 (by simp)
    simp only [greedyCount, if_pos h0, List.length_cons, Nat.succ_inj']
    refine ih (θ - (n : ℚ)) fun k hk => ?_
    have := h (k + 1) (by simpa using Nat.succ_lt_succ hk)
    simp only [List.take_succ_cons, List.sum_cons] at this
    push_cast at this ⊢
    linarith

theorem sum_take_lt_sum_of_pos (l : List ℕ) (hpos : ∀ n ∈ l, 0 < n)
    (k : ℕ) (hk : k < l.length) :
    (l.take k).sum < l.sum := by
  have hsplit : (l.take k).sum + (l.drop k).sum = l.sum :=
    List.sum_take_add_sum_drop l k
  have hnil : l.drop k ≠ [] := by
    intro hcon
    have := congrArg List.length hcon
    simp [List.length_drop] at this
    omega
  obtain ⟨m, rest, hm⟩ := List.exists_cons_of_ne_nil hnil
  have hmem : m ∈ l := List.drop_subset k l (by rw [hm]; exact List.mem_cons_self m rest)
  have hmpos : 0 < m := hpos m hmem
  have : 0 < (l.drop k).sum := by
    rw [hm, List.sum_cons]
    omega
  omega

theorem sum_pos_of_ne_nil {l : List ℕ} (hl : l ≠ []) (hpos : ∀ n ∈ l, 0 < n) :
    0 < l.sum := by
  cases l with
  | nil => exact absurd rfl hl
  | cons n rest =>
    have := hpos n (List.mem_cons_self n rest)
    simp only [List.sum_cons]
    omega

theorem getLastD_mem {α : Type} (l : List α) (d : α) (hl : l ≠ []) :
    l.getLastD d ∈ l := by
  induction l generalizing d with
  | nil => exact absurd rfl hl
  | cons a rest ih =>
    rw [List.getLastD_cons]
    cases rest with
    | nil => simp [List.getLastD]
    | cons b r => exact List.mem_cons_of_mem a (ih b (by simp))

/-! ## The split loop computes the greedy threshold assignment -/

theorem splitLoop_spec (θ : ℚ) (records : List (String × String))
    (l : List (String × PlinkStudy)) :
    ∀ (tr te : List (String × String)) (t : ℚ) (m : ℕ),
    splitLoop θ records l
      { train_studies := tr, test_studies := te, train_set_size := t,
        m_variants := m } =
      { train_studies :=
          tr ++ (l.take (greedyCount (θ - t) (famSizes l))).map (entryRecord records),
        test_studies :=
          te ++ (l.drop (greedyCount (θ - t) (famSizes l))).map (entryRecord records),
        train_set_size :=
          t + ((((famSizes l).take (greedyCount (θ - t) (famSizes l))).sum : ℕ) : ℚ),
        m_variants :=
          ((l.take (greedyCount (θ - t) (famSizes l))).map
            fun sp => sp.2.bim.length).getLastD m } := by
  induction l with
  | nil =>
    intro tr te t m
    simp [splitLoop, famSizes, greedyCount]
  | cons sp rest ih =>
    intro tr te t m
    by_cases hc : t < θ
    · have h0 : 0 < θ - t := sub_pos.mpr hc
      have harg : θ - (t + (sp.2.fam.length : ℚ)) = θ - t - (sp.2.fam.length : ℚ) := by
        ring
      simp only [splitLoop, if_pos hc]
      rw [ih, harg]
      simp only [famSizes, List.map_cons, greedyCount, if_pos h0,
        List.take_succ_cons, List.drop_succ_cons, List.sum_cons,
        List.getLastD_cons, SplitState.mk.injEq]
      refine ⟨by simp, ?_, ?_⟩
      all_goals try refine ⟨?_, ?_⟩
      all_goals first
        | trivial
        | (push_cast; ring)
    · have h0 : ¬ 0 < θ - t := fun hcon => hc (sub_pos.mp hcon)
      simp only [splitLoop, if_neg hc]
      rw [ih]
      have hz : greedyCount (θ - t) (famSizes rest) = 0 :=
        greedyCount_of_nonpos h0 _
      have hz2 : greedyCount (θ - t) (famSizes (sp :: rest)) = 0 :=
        greedyCount_of_nonpos h0 _
      rw [hz, hz2]
      simp [SplitState.mk.injEq]

/-! ## Auxiliary facts about paths and unpacking -/

theorem length_recordPath_ge (tf_records_dir study : String) :
    10 ≤ (recordPath tf_records_dir study).length := by
  have hten : (".tfrecords" : String).length = 10 := rfl
  have hone : ("/" : String).length = 1 := rfl
  unfold recordPath osPathJoin
  split
  · rw [String.length_append, hten]; omega
  · split
    · rw [String.length_append, String.length_append, hten]; omega
    · rw [String.length_append, String.length_append, String.length_append,
        hten, hone]
      omega

theorem unpackTriple_of_length_ne (s : String) (h : s.length ≠ 3) :
    unpackTriple s = Except.error PyError.valueError := by
  obtain ⟨data⟩ := s
  have hd : data.length ≠ 3 := h
  rcases data with _ | ⟨a, _ | ⟨b, _ | ⟨c, _ | ⟨d, tl⟩⟩⟩⟩
  · rfl
  · rfl
  · rfl
  · exact absurd rfl hd
  · rfl

/-! ## Auxiliary fact about the mean of an elementwise difference -/

theorem sum_zipWith_sub (ls ds : List ℚ) (h : ls.length = ds.length) :
    (List.zipWith (fun a b => a - b) ls ds).sum = ls.sum - ds.sum := by
  induction ls generalizing ds with
  | nil =>
    cases ds with
    | nil => simp
    | cons b tl => simp at h
  | cons a tl ih =>
    cases ds with
    | nil => simp at h
    | cons b tl2 =>
      simp only [List.zipWith_cons_cons, List.sum_cons]
      rw [ih tl2 (by simpa using h)]
      ring

/-! ## The claims -/

/-- C1: the claim says `train_set_minibatches` yields imputed batches of each
training study's genotype data, one optimizer update per batch.  The code
cannot: `test_train_split` stores the record-file *path* as each value of
`train_studies` (line 144), and the loop header of `train_set_minibatches`
(line 169) unpacks that string as a `(bim, fam, G)` triple.  Every record
path ends in ".tfrecords", so its length is at least 10 and the unpacking
raises `ValueError` on the first study — no batch is ever yielded and no
optimizer update can run. -/
theorem C1_train_set_minibatches_value_error (study tf_records_dir : String)
    (rest : List (String × String)) :
    train_set_minibatches ((study, recordPath tf_records_dir study) :: rest)
      = Except.error PyError.valueError := by
  have hlen : (recordPath tf_records_dir study).length ≠ 3 := by
    have := length_recordPath_ge tf_records_dir study
    omega
  simp only [train_set_minibatches]
  rw [unpackTriple_of_length_ne _ hlen]

/-- C2: the claim says a file is kept when it exists and `overwrite` is
false, and is (re)written when `overwrite` is true.  The first two conjuncts
confirm the `overwrite=False` behaviour (written once, the second call keeps
the filesystem unchanged); the third shows the divergence: on a fresh
filesystem with `overwrite=True` the skip branch of line 97
(`if os.path.exists(filename) or overwrite:`) is taken and *nothing* is
written. -/
theorem C2_overwrite_true_skips_write :
    fsExists (make_tf_records [] demoDir false demoArrays).fs
        (recordPath demoDir "study1") = true ∧
    (make_tf_records (make_tf_records [] demoDir false demoArrays).fs
        demoDir false demoArrays).fs
      = (make_tf_records [] demoDir false demoArrays).fs ∧
    (make_tf_records [] demoDir true demoArrays).fs = [] := by
  refine ⟨by decide, by decide, by decide⟩

/-- C3: the claim says every yielded batch has exactly `batch_size` rows,
with or without shuffling.  Without shuffling that holds (second conjunct:
25 samples, batch size 10, two batches of 10 rows each, 5 samples dropped).
With shuffling it fails: `minibatch` slices
`X[idxs[i*batch_size] : idxs[i*batch_size]+batch_size]` from the *original*
array, so for the legitimate shuffle outcome `shuffled25` (first conjunct: a
permutation of `np.arange(25)`) whose entry 0 is 20, the first batch is
`X[20:30]`, clipped to 5 rows (third conjunct). -/
theorem C3_minibatch_shuffled_short_batch :
    shuffled25.Perm (List.range 25) ∧
    (minibatch X25 10 (List.range 25)).map List.length = [10, 10] ∧
    (minibatch X25 10 shuffled25).map List.length = [5, 10] := by
  refine ⟨by decide, by decide, by decide⟩

/-- C6: the claim says writing a no-missing matrix and reading it back
yields the identical matrix, one record per sample of length equal to the
variant count.  The write side holds (first three conjuncts: one record for
the one sample, of length 2, the study's variant count, with the written
values).  Reading back fails: `decode_tf_records` declares the feature as
`FixedLenFeature((), tf.int64)` — a scalar — so parsing the length-2 record
raises an invalid-argument error instead of returning the vector. -/
theorem C6_decode_cannot_read_back :
    studyRecords demoStudy.G = [[0, 1]] ∧
    (studyRecords demoStudy.G).length = demoStudy.sampleCount ∧
    ((studyRecords demoStudy.G).headD []).length = demoStudy.variantCount ∧
    decode_tf_records ((studyRecords demoStudy.G).headD [])
      = Except.error PyError.invalidArgument := by
  refine ⟨by decide, by decide, by decide, by decide⟩

/-- C5: the quantity handed to the optimizer (`minimize(-self.elbo)`) equals
the batch-mean KL divergence minus the batch-mean log-likelihood, and
minimizing it is equivalent to maximizing the reported elbo. -/
theorem C5_training_objective_neg_elbo (likelihood divergence : List ℚ)
    (h : likelihood.length = divergence.length) :
    trainingObjective likelihood divergence
      = reduce_mean divergence - reduce_mean likelihood ∧
    ∀ l2 d2 : List ℚ,
      (trainingObjective likelihood divergence ≤ trainingObjective l2 d2 ↔
        elbo l2 d2 ≤ elbo likelihood divergence) := by
  constructor
  · unfold trainingObjective elbo reduce_mean
    rw [sum_zipWith_sub likelihood divergence h, List.length_zipWith, h,
      min_self]
    ring
  · intro l2 d2
    unfold trainingObjective
    exact neg_le_neg_iff

/-- Witness for C5 at the concrete batch vectors `[1, 2]` and `[5, 7]`. -/
theorem C5_training_objective_witness :
    trainingObjective [1, 2] [5, 7] = reduce_mean [5, 7] - reduce_mean [1, 2] ∧
    ∀ l2 d2 : List ℚ,
      (trainingObjective [1, 2] [5, 7] ≤ trainingObjective l2 d2 ↔
        elbo l2 d2 ≤ elbo [1, 2] [5, 7]) :=
  C5_training_objective_neg_elbo [1, 2] [5, 7] rfl

/-- C9: after `__init__`, the registry's `m_variants` is the *sum* of the
loaded studies' variant counts (line 63). -/
theorem C9_m_variants_is_sum (fs0 : FileSystem) (tf_records_dir : String)
    (test_prop : ℚ) (study_arrays : List (String × PlinkStudy)) :
    (MetaAnalysisDataset.init fs0 tf_records_dir test_prop study_arrays).m_variants
      = (study_arrays.map fun sp => sp.2.variantCount).sum := rfl

/-- C8 (amended): when the total sample count is zero, `test_train_split`
raises `ZeroDivisionError` — from the proportion report on line 152 — rather
than signalling the spec's `EmptySplitError`, which the code never
defines. -/
theorem C8_zero_total_zero_division (study_arrays order : List (String × PlinkStudy))
    (records : List (String × String)) (test_prop : ℚ) (m0 : ℕ)
    (h : totalSampleSize study_arrays = 0) :
    test_train_split study_arrays records test_prop m0 order
      = Except.error PyError.zeroDivisionError := by
  unfold test_train_split
  rw [if_pos h]

/-- Counterexample to C8 as stated: on a registry whose total sample count
is zero the code raises `ZeroDivisionError`, not `EmptySplitError`. -/
theorem C8_no_empty_split_error :
    test_train_split emptyArrays [] (1/2) 1 emptyArrays
        = Except.error PyError.zeroDivisionError ∧
    test_train_split emptyArrays [] (1/2) 1 emptyArrays
        ≠ Except.error PyError.emptySplitError := by
  refine ⟨by decide, by decide⟩

/-- Witness for C8's amended theorem at the zero-sample registry. -/
theorem C8_zero_total_witness :
    totalSampleSize emptyArrays = 0 ∧
    test_train_split emptyArrays [] (1/2) 1 emptyArrays
      = Except.error PyError.zeroDivisionError :=
  ⟨by decide, C8_zero_total_zero_division emptyArrays emptyArrays [] (1/2) 1 (by decide)⟩

/-- With a nonzero total sample count, `test_train_split` returns the state
the greedy loop computes, characterized through `greedyCount`. -/
theorem test_train_split_ok (study_arrays order : List (String × PlinkStudy))
    (records : List (String × String)) (p : ℚ) (m0 : ℕ)
    (hNne : ¬ totalSampleSize study_arrays = 0) :
    test_train_split study_arrays records p m0 order =
      Except.ok
        { train_studies :=
            (order.take (greedyCount (totalSampleSize study_arrays * p)
              (famSizes order))).map (entryRecord records),
          test_studies :=
            (order.drop (greedyCount (totalSampleSize study_arrays * p)
              (famSizes order))).map (entryRecord records),
          train_set_size :=
            ((((famSizes order).take (greedyCount (totalSampleSize study_arrays * p)
              (famSizes order))).sum : ℕ) : ℚ),
          m_variants :=
            ((order.take (greedyCount (totalSampleSize study_arrays * p)
              (famSizes order))).map fun sp => sp.2.bim.length).getLastD m0 } := by
  unfold test_train_split
  rw [if_neg hNne, splitLoop_spec]
  simp

/-- Under a permutation, the sample sizes of the shuffled order sum to the
registry's total. -/
theorem famSizes_perm_sum (study_arrays order : List (String × PlinkStudy))
    (hperm : order.Perm study_arrays) :
    (((famSizes order).sum : ℕ) : ℚ) = totalSampleSize study_arrays := by
  have hpm : (famSizes order).Perm (famSizes study_arrays) := by
    unfold famSizes
    exact hperm.map fun sp => sp.2.fam.length
  unfold totalSampleSize
  rw [hpm.sum_eq]
  rfl

/-- C4: with a positive total and a target proportion in (0, 1], the split
assigns a prefix of the shuffled order to the train group — the first
prefix whose sample count T reaches the threshold: T minus the last added
study's size is below `p * N` and `p * N ≤ T` — and the remaining suffix to
the test group. -/
theorem C4_greedy_threshold_split (study_arrays order : List (String × PlinkStudy))
    (records : List (String × String)) (p : ℚ) (m0 : ℕ)
    (hperm : order.Perm study_arrays) (hp0 : 0 < p) (hp1 : p ≤ 1)
    (hN : 0 < totalSampleSize study_arrays) :
    ∃ st : SplitState, ∃ k : ℕ,
      test_train_split study_arrays records p m0 order = Except.ok st ∧
      0 < k ∧ k ≤ order.length ∧
      st.train_studies = (order.take k).map (entryRecord records) ∧
      st.test_studies = (order.drop k).map (entryRecord records) ∧
      st.train_set_size = ((((famSizes order).take k).sum : ℕ) : ℚ) ∧
      ((((famSizes order).take (k - 1)).sum : ℕ) : ℚ)
        < p * totalSampleSize study_arrays ∧
      p * totalSampleSize study_arrays ≤ st.train_set_size := by
  have hNne : ¬ totalSampleSize study_arrays = 0 := ne_of_gt hN
  have hθpos : 0 < totalSampleSize study_arrays * p := mul_pos hN hp0
  have hsum := famSizes_perm_sum study_arrays order hperm
  have hθle : totalSampleSize study_arrays * p ≤ (((famSizes order).sum : ℕ) : ℚ) := by
    rw [hsum]
    nlinarith
  have hfam_ne : famSizes order ≠ [] := by
    intro hcon
    rw [hcon] at hsum
    simp only [List.sum_nil, Nat.cast_zero] at hsum
    rw [← hsum] at hN
    exact lt_irrefl 0 hN
  refine ⟨_, greedyCount (totalSampleSize study_arrays * p) (famSizes order),
    test_train_split_ok study_arrays order records p m0 hNne,
    greedyCount_pos hθpos hfam_ne, ?_, rfl, rfl, rfl, ?_, ?_⟩
  · have h1 := greedyCount_le_length (totalSampleSize study_arrays * p) (famSizes order)
    have h2 : (famSizes order).length = order.length := by simp [famSizes]
    omega
  · have h3 := sum_take_pred_greedyCount_lt (totalSampleSize study_arrays * p)
      (famSizes order) hθpos
    have hc : totalSampleSize study_arrays * p = p * totalSampleSize study_arrays :=
      mul_comm _ _
    linarith
  · have h4 := le_sum_take_greedyCount (totalSampleSize study_arrays * p)
      (famSizes order) hθle
    have hc : totalSampleSize study_arrays * p = p * totalSampleSize study_arrays :=
      mul_comm _ _
    show p * totalSampleSize study_arrays ≤
      ((((famSizes order).take (greedyCount (totalSampleSize study_arrays * p)
        (famSizes order))).sum : ℕ) : ℚ)
    linarith

/-- Witness for C4 at the two-study registry with ten samples each and a
half target: the first study alone reaches the threshold of ten samples. -/
theorem C4_greedy_threshold_witness :
    ∃ st : SplitState, ∃ k : ℕ,
      test_train_split arrays2 records2 (1/2) 5 arrays2 = Except.ok st ∧
      0 < k ∧ k ≤ arrays2.length ∧
      st.train_studies = (arrays2.take k).map (entryRecord records2) ∧
      st.test_studies = (arrays2.drop k).map (entryRecord records2) ∧
      st.train_set_size = ((((famSizes arrays2).take k).sum : ℕ) : ℚ) ∧
      ((((famSizes arrays2).take (k - 1)).sum : ℕ) : ℚ)
        < (1/2) * totalSampleSize arrays2 ∧
      (1/2) * totalSampleSize arrays2 ≤ st.train_set_size :=
  C4_greedy_threshold_split arrays2 arrays2 records2 (1/2) 5
    (List.Perm.refl arrays2) (by norm_num) (by norm_num) (by decide)

/-- C7: split edge cases.  First conjunct: a single-study registry puts the
study — all its samples — entirely into one of the two groups, whatever the
proportion parameter.  Second: proportion 0 sends every study to the test
group.  Third: proportion 1 or above sends every study to the train
group. -/
theorem C7_split_edge_cases :
    (∀ (s : String) (ps : PlinkStudy) (records : List (String × String))
        (p : ℚ) (m0 : ℕ), ps.fam ≠ [] →
      ∃ st : SplitState,
        test_train_split [(s, ps)] records p m0 [(s, ps)] = Except.ok st ∧
        ((st.train_studies = [(s, lookupRecord records s)] ∧
          st.test_studies = []) ∨
         (st.train_studies = [] ∧
          st.test_studies = [(s, lookupRecord records s)]))) ∧
    (∀ (study_arrays order : List (String × PlinkStudy))
        (records : List (String × String)) (m0 : ℕ),
      order.Perm study_arrays → 0 < totalSampleSize study_arrays →
      ∃ st : SplitState,
        test_train_split study_arrays records 0 m0 order = Except.ok st ∧
        st.train_studies = [] ∧
        st.test_studies = order.map (entryRecord records)) ∧
    (∀ (study_arrays order : List (String × PlinkStudy))
        (records : List (String × String)) (p : ℚ) (m0 : ℕ),
      order.Perm study_arrays → 1 ≤ p → study_arrays ≠ [] →
      (∀ sp ∈ study_arrays, sp.2.fam ≠ []) →
      ∃ st : SplitState,
        test_train_split study_arrays records p m0 order = Except.ok st ∧
        st.train_studies = order.map (entryRecord records) ∧
        st.test_studies = []) := by
  refine ⟨?_, ?_, ?_⟩
  · intro s ps records p m0 hfam
    have hlen : 0 < ps.fam.length := List.length_pos.mpr hfam
    have hNpos : 0 < totalSampleSize [(s, ps)] := by
      unfold totalSampleSize
      simp only [List.map_cons, List.map_nil, List.sum_cons, List.sum_nil,
        Nat.add_zero]
      exact_mod_cast hlen
    have hNne : ¬ totalSampleSize [(s, ps)] = 0 := ne_of_gt hNpos
    refine ⟨_, test_train_split_ok [(s, ps)] [(s, ps)] records p m0 hNne, ?_⟩
    by_cases hθ : 0 < totalSampleSize [(s, ps)] * p
    · left
      refine ⟨?_, ?_⟩ <;> simp [famSizes, greedyCount, hθ, entryRecord]
    · right
      refine ⟨?_, ?_⟩ <;> simp [famSizes, greedyCount, hθ, entryRecord]
  · intro study_arrays order records m0 hperm hN
    have hNne : ¬ totalSampleSize study_arrays = 0 := ne_of_gt hN
    have hz : greedyCount 0 (famSizes order) = 0 :=
      greedyCount_of_nonpos (lt_irrefl 0) _
    refine ⟨_, test_train_split_ok study_arrays order records 0 m0 hNne, ?_, ?_⟩
    · simp [hz]
    · simp [hz]
  · intro study_arrays order records p m0 hperm hp1 hne hfams
    have hfS_ne : famSizes study_arrays ≠ [] := by
      intro hcon
      apply hne
      unfold famSizes at hcon
      exact List.map_eq_nil_iff.mp hcon
    have hposS : ∀ n ∈ famSizes study_arrays, 0 < n := by
      intro n hn
      unfold famSizes at hn
      obtain ⟨sp, hsp, rfl⟩ := List.mem_map.mp hn
      exact List.length_pos.mpr (hfams sp hsp)
    have hsumpos : 0 < (famSizes study_arrays).sum :=
      sum_pos_of_ne_nil hfS_ne hposS
    have hN : 0 < totalSampleSize study_arrays := by
      unfold totalSampleSize
      exact_mod_cast hsumpos
    have hNne : ¬ totalSampleSize study_arrays = 0 := ne_of_gt hN
    have hsum := famSizes_perm_sum study_arrays order hperm
    have hposO : ∀ n ∈ famSizes order, 0 < n := by
      intro n hn
      unfold famSizes at hn
      obtain ⟨sp, hsp, rfl⟩ := List.mem_map.mp hn
      exact List.length_pos.mpr (hfams sp (hperm.subset hsp))
    have hall : greedyCount (totalSampleSize study_arrays * p) (famSizes order)
        = (famSizes order).length := by
      apply greedyCount_eq_length
      intro k hk
      have hlt : ((famSizes order).take k).sum < (famSizes order).sum :=
        sum_take_lt_sum_of_pos _ hposO k hk
      have hlt2 : ((((famSizes order).take k).sum : ℕ) : ℚ)
          < totalSampleSize study_arrays := by
        rw [← hsum]
        exact_mod_cast hlt
      have hmul : totalSampleSize study_arrays
          ≤ totalSampleSize study_arrays * p := by
        nlinarith
      linarith
    have hlen2 : (famSizes order).length = order.length := by simp [famSizes]
    refine ⟨_, test_train_split_ok study_arrays order records p m0 hNne, ?_, ?_⟩
    · simp [hall, hlen2]
    · simp [hall, hlen2]

/-- Witness for C7, applying its single-study conjunct to the one-study
registry. -/
theorem C7_split_edge_witness :
    ∃ st : SplitState,
      test_train_split [("study1", demoStudy)] demoRecords 1 2
          [("study1", demoStudy)] = Except.ok st ∧
      ((st.train_studies = [("study1", lookupRecord demoRecords "study1")] ∧
        st.test_studies = []) ∨
       (st.train_studies = [] ∧
        st.test_studies = [("study1", lookupRecord demoRecords "study1")])) :=
  C7_split_edge_cases.1 "study1" demoStudy demoRecords 1 2 (by decide)

/-- C10 (amended): a split that assigns at least one study to the train
group leaves `m_variants` equal to the variant count of the study added last
(line 146); with at least two studies of positive variant counts this is
strictly below `m_variants_init` — the sum of all variant counts that sized
the model's input placeholder — though with a single study the two
coincide. -/
theorem C10_m_variants_overwritten (study_arrays order : List (String × PlinkStudy))
    (records : List (String × String)) (p : ℚ) (m0 : ℕ)
    (hperm : order.Perm study_arrays) (hp0 : 0 < p)
    (hN : 0 < totalSampleSize study_arrays) :
    ∃ st : SplitState, ∃ k : ℕ,
      test_train_split study_arrays records p m0 order = Except.ok st ∧
      0 < k ∧
      st.train_studies = (order.take k).map (entryRecord records) ∧
      st.m_variants
        = ((order.take k).map fun sp => sp.2.variantCount).getLastD m0 ∧
      (2 ≤ study_arrays.length → (∀ sp ∈ study_arrays, 0 < sp.2.variantCount) →
        st.m_variants < m_variants_init study_arrays) := by
  have hNne : ¬ totalSampleSize study_arrays = 0 := ne_of_gt hN
  have hθpos : 0 < totalSampleSize study_arrays * p := mul_pos hN hp0
  have hsum := famSizes_perm_sum study_arrays order hperm
  have hfam_ne : famSizes order ≠ [] := by
    intro hcon
    rw [hcon] at hsum
    simp only [List.sum_nil, Nat.cast_zero] at hsum
    rw [← hsum] at hN
    exact lt_irrefl 0 hN
  have hkpos := greedyCount_pos hθpos hfam_ne
  have hklen : greedyCount (totalSampleSize study_arrays * p) (famSizes order)
      ≤ order.length := by
    have h1 := greedyCount_le_length (totalSampleSize study_arrays * p)
      (famSizes order)
    have h2 : (famSizes order).length = order.length := by simp [famSizes]
    omega
  refine ⟨_, greedyCount (totalSampleSize study_arrays * p) (famSizes order),
    test_train_split_ok study_arrays order records p m0 hNne, hkpos, rfl, rfl, ?_⟩
  intro hlen2 hvc
  show ((order.take (greedyCount (totalSampleSize study_arrays * p)
      (famSizes order))).map fun sp => sp.2.bim.length).getLastD m0
    < m_variants_init study_arrays
  rw [List.map_take]
  have hLlen : (order.map fun sp => sp.2.bim.length).length = order.length := by
    simp
  have htk_len : (((order.map fun sp => sp.2.bim.length).take
      (greedyCount (totalSampleSize study_arrays * p) (famSizes order)))).length
      = greedyCount (totalSampleSize study_arrays * p) (famSizes order) := by
    rw [List.length_take]
    omega
  have htk_ne : (order.map fun sp => sp.2.bim.length).take
      (greedyCount (totalSampleSize study_arrays * p) (famSizes order)) ≠ [] := by
    intro hcon
    rw [hcon] at htk_len
    simp only [List.length_nil] at htk_len
    omega
  have hxmem : ((order.map fun sp => sp.2.bim.length).take
        (greedyCount (totalSampleSize study_arrays * p) (famSizes order))).getLastD m0
      ∈ (order.map fun sp => sp.2.bim.length) :=
    List.take_subset _ _ (getLastD_mem _ m0 htk_ne)
  have hLsum : (order.map fun sp => sp.2.bim.length).sum
      = m_variants_init study_arrays := by
    have hpm : (order.map fun sp => sp.2.bim.length).Perm
        (study_arrays.map fun sp => sp.2.bim.length) :=
      hperm.map fun sp => sp.2.bim.length
    rw [hpm.sum_eq]
    rfl
  have hposL : ∀ n ∈ (order.map fun sp => sp.2.bim.length), 0 < n := by
    intro n hn
    obtain ⟨sp, hsp, rfl⟩ := List.mem_map.mp hn
    exact hvc sp (hperm.subset hsp)
  have hce : (order.map fun sp => sp.2.bim.length).Perm
      (((order.map fun sp => sp.2.bim.length).take
          (greedyCount (totalSampleSize study_arrays * p) (famSizes order))).getLastD m0
        :: (order.map fun sp => sp.2.bim.length).erase
          (((order.map fun sp => sp.2.bim.length).take
            (greedyCount (totalSampleSize study_arrays * p) (famSizes order))).getLastD m0)) :=
    List.perm_cons_erase hxmem
  have hsum2 : (order.map fun sp => sp.2.bim.length).sum
      = (((order.map fun sp => sp.2.bim.length).take
          (greedyCount (totalSampleSize study_arrays * p) (famSizes order))).getLastD m0)
        + ((order.map fun sp => sp.2.bim.length).erase
          (((order.map fun sp => sp.2.bim.length).take
            (greedyCount (totalSampleSize study_arrays * p) (famSizes order))).getLastD m0)).sum := by
    rw [hce.sum_eq, List.sum_cons]
  have her_len : ((order.map fun sp => sp.2.bim.length).erase
        (((order.map fun sp => sp.2.bim.length).take
          (greedyCount (totalSampleSize study_arrays * p) (famSizes order))).getLastD m0)).length
      = (order.map fun sp => sp.2.bim.length).length - 1 :=
    List.length_erase_of_mem hxmem
  have hOlen : order.length = study_arrays.length := hperm.length_eq
  have her_ne : (order.map fun sp => sp.2.bim.length).erase
        (((order.map fun sp => sp.2.bim.length).take
          (greedyCount (totalSampleSize study_arrays * p) (famSizes order))).getLastD m0) ≠ [] := by
    intro hcon
    have hcl := congrArg List.length hcon
    rw [her_len] at hcl
    simp only [List.length_nil] at hcl
    omega
  have herpos : ∀ n ∈ (order.map fun sp => sp.2.bim.length).erase
        (((order.map fun sp => sp.2.bim.length).take
          (greedyCount (totalSampleSize study_arrays * p) (famSizes order))).getLastD m0),
      0 < n :=
    fun n hn => hposL n (List.erase_subset _ _ hn)
  have hpos_sum := sum_pos_of_ne_nil her_ne herpos
  omega

/-- Counterexample to C10 as stated: after a split of the one-study registry
that assigns the study to the train group, `m_variants` still equals the sum
of the variant counts over all studies (the single study's count is the
sum). -/
theorem C10_single_study_keeps_sum :
    m_variants_init demoArrays = 2 ∧
    test_train_split demoArrays demoRecords 1 2 demoArrays =
      Except.ok
        { train_studies := [("study1", "/plink_tensorflow/data/study1.tfrecords")],
          test_studies := [], train_set_size := 1, m_variants := 2 } := by
  constructor
  · decide
  · simp [test_train_split, totalSampleSize, demoArrays, demoStudy, splitLoop,
      entryRecord, lookupRecord, demoRecords, make_tf_records, recordPath,
      osPathJoin, fsExists, demoDir]

/-- Witness for C10's amended theorem at the two-study registry (variant
counts 2 and 3, ten samples each, target one half). -/
theorem C10_m_variants_witness :
    ∃ st : SplitState, ∃ k : ℕ,
      test_train_split arrays2 records2 (1/2) 7 arrays2 = Except.ok st ∧
      0 < k ∧
      st.train_studies = (arrays2.take k).map (entryRecord records2) ∧
      st.m_variants
        = ((arrays2.take k).map fun sp => sp.2.variantCount).getLastD 7 ∧
      (2 ≤ arrays2.length → (∀ sp ∈ arrays2, 0 < sp.2.variantCount) →
        st.m_variants < m_variants_init arrays2) :=
  C10_m_variants_overwritten arrays2 arrays2 records2 (1/2) 7
    (List.Perm.refl arrays2) (by norm_num) (by decide)

end PlinkTensorflow
